import Mathlib

/-!
# Verification of the repository-inspection pipeline (`src/autogo.py`)

Shallow embedding of the pipeline in `src/autogo.py` and proofs about it.

Conventions of the embedding:
* Python strings are modelled as `List Char` (`Str` below); `chars` converts a
  Lean string literal to this representation.  `Char.toLower` models
  `str.lower()` (the inputs compared against are ASCII).
* Python dicts are modelled as ordered association lists (`List (Str × α)`)
  with unique keys, matching insertion-ordered `dict` semantics:
  `lookupL` models `d.get(k)` / `d[k]`, `setL` models `d[k] = v`
  (replace in place, else append), `dsetdefault` models `d.setdefault(k, v)`
  and `dupdate` models `d.update(kvs)`.
* JSON values are modelled by the inductive type `Value`.
* Fallible Python code (raised exceptions) is modelled with `Except PyErr`.
  `PyErr.api` models the `RuntimeError(f"HTTP {status} for {url}: {data}")`
  raised by `GitHubClient._get_json` for status ≥ 400 (it carries the status
  and the response body; the URL and exact message rendering are not needed by
  any claim and are kept only in `errStr` in abbreviated form).
  `PyErr.typeErr` models the `AttributeError`/`TypeError` exceptions Python
  raises when a JSON shape is unexpected (e.g. `.get` on a non-dict, or
  `dict.update` called on a non-dict `build_metadata` value).
* The network is modelled by passing each record the `HttpResponse` the server
  would return for its two requests (`GhWorld`); the wall clock is modelled by
  passing the ISO timestamp that `now_iso()` would produce.
* `asyncio.gather` over the per-record coroutines returns results indexed by
  original position; `processEntries` models this by structural recursion.
  The `asyncio.Semaphore` permit pool is modelled separately as a labelled
  transition system (`PoolStep`, see the concurrency section).
-/

namespace Autogo

/-- Python strings, modelled as lists of characters. -/
abbrev Str := List Char

/-- Converts a Lean string literal into the `Str` model. -/
def chars (s : String) : Str := s.data

/-- Models Python `s.lower()` (pointwise `Char.toLower`). -/
def lowerL (s : Str) : Str := s.map Char.toLower

/-- Models Python `s.endswith(suf)`. -/
def endsWithL (s suf : Str) : Bool := decide (suf <:+ s)

/-- Models Python `s.startswith(pre)`. -/
def startsL (s pre : Str) : Bool := decide (pre <+: s)

/-- The final path segment of `p`: everything after the last `'/'`
(the whole of `p` when it has no slash).  Used to state claims that speak
about "filenames". -/
def fileName (p : Str) : Str := (p.reverse.takeWhile (fun c => c != '/')).reverse

/-! ## RepoReference Parser (`parse_repo`, `GITHUB_RE`) -/

/-- `RepoRef` from `src/autogo.py` (dataclass with fields host, owner, repo). -/
structure RepoRef where
  host : Str
  owner : Str
  repo : Str
deriving DecidableEq

/-- Models the Python-`re` semantics of the optional trailing part
`(?:/.*)?$` of `GITHUB_RE` applied to the remainder `rem` of the URL after
the `repo` group (greedy `[^/#]+`) has been consumed.  `rem` is empty or
starts with `'/'` or `'#'`.  Python's `.` does not match `'\n'` and `$` also
matches just before a final `'\n'`, so `/rest` is accepted iff `rest`
contains no newline except possibly as its very last character. -/
def tailOk (rem : Str) : Bool :=
  match rem with
  | [] => true
  | c :: rest =>
    c == '/' &&
      (let core := if rest.getLast? == some '\n' then rest.dropLast else rest
       core.all (fun ch => ch != '\n'))

/-- Embedding of `parse_repo` / `GITHUB_RE.match`:

    `^https?://github\.com/(?P<owner>[^/]+)/(?P<repo>[^/#]+)(?:/.*)?$`

The regex is determinized: `[^/]+` cannot contain `'/'`, so greedy matching
with backtracking is equivalent to taking the maximal slash-free run; likewise
for `[^/#]+`; the leftover must then satisfy `(?:/.*)?$` (see `tailOk`). -/
def parse_repo (url : Str) : Option RepoRef :=
  let afterScheme : Option Str :=
    if startsL url (chars "https://") then some (url.drop 8)
    else if startsL url (chars "http://") then some (url.drop 7)
    else none
  match afterScheme with
  | none => none
  | some rest =>
    if startsL rest (chars "github.com/") then
      let after := rest.drop 11
      let owner := after.takeWhile (fun c => c != '/')
      if owner.isEmpty then none
      else
        match after.drop owner.length with
        | [] => none
        | c :: tail =>
          if c = '/' then
            let repo := tail.takeWhile (fun ch => ch != '/' && ch != '#')
            if repo.isEmpty then none
            else if tailOk (tail.drop repo.length) then
              some ⟨chars "github", owner, repo⟩
            else none
          else none
    else none

/-! ## JSON values and Python dict operations -/

/-- JSON-like Python values (the payloads of `resp.json()` and the fields of a
package record loaded from YAML). -/
inductive Value where
  | null
  | bool (b : Bool)
  | int (n : Int)
  | str (s : Str)
  | list (elems : List Value)
  | dict (kvs : List (Str × Value))

/-- Models `d.get(k)` on an (insertion-ordered, unique-keyed) dict. -/
def lookupL {α : Type} : List (Str × α) → Str → Option α
  | [], _ => none
  | (k', v) :: rest, k => if k' = k then some v else lookupL rest k

/-- Models `d[k] = v`: replaces the value in place when the key is present,
appends otherwise. -/
def setL {α : Type} : List (Str × α) → Str → α → List (Str × α)
  | [], k, v => [(k, v)]
  | (k', v') :: rest, k, v =>
    if k' = k then (k, v) :: rest else (k', v') :: setL rest k v

/-- A package record: ordered mapping of string keys to values. -/
abbrev Entry := List (Str × Value)

/-- `dget e k` models `e.get(k)` on a record / JSON object. -/
def dget (d : Entry) (k : Str) : Option Value := lookupL d k

/-- Models `d.setdefault(k, v)` (insert at the end only when `k` is absent). -/
def dsetdefault (d : Entry) (k : Str) (v : Value) : Entry :=
  if (dget d k).isSome then d else d ++ [(k, v)]

/-- Models `d.update(kvs)` for a literal dict `kvs` (left-to-right). -/
def dupdate (d : Entry) (kvs : List (Str × Value)) : Entry :=
  kvs.foldl (fun a kv => setL a kv.1 kv.2) d

/-- Python truthiness `if p:` for the modelled values. -/
def truthy : Value → Bool
  | .null => false
  | .bool b => b
  | .int n => n != 0
  | .str s => !s.isEmpty
  | .list xs => !xs.isEmpty
  | .dict kvs => !kvs.isEmpty

/-! ## Rate-Aware API Client (`GitHubClient`) -/

/-- An HTTP response as observed by `_get_json`: status code, parsed JSON
body, and the response headers it reads. -/
structure HttpResponse where
  status : Nat
  body : Value
  headers : List (Str × Str)

/-- Header lookup, models `resp.headers.get(name)`. -/
def hget (hs : List (Str × Str)) (k : Str) : Option Str := lookupL hs k

/-- The `rate` dict built by `_get_json` from the three `x-ratelimit-*`
headers and the status (a fixed-shape dict, modelled as a structure). -/
structure Rate where
  limit : Option Str
  remaining : Option Str
  reset : Option Str
  status : Nat

/-- The data carried by the `RuntimeError(f"HTTP {resp.status} for {url}:
{data}")` that `_get_json` raises on HTTP status ≥ 400: the status and the
response body. -/
structure ApiError where
  status : Nat
  body : Value

/-- Exceptions raised by the embedded code.  `api` is the status ≥ 400
`RuntimeError` of `_get_json`; `typeErr` stands for the
`AttributeError`/`TypeError` raised on unexpected JSON shapes.  Both are
caught alike by the bare `except Exception` in `enrich_entry`. -/
inductive PyErr where
  | api (e : ApiError)
  | typeErr

/-- Abbreviated model of Python `str(e)` for a caught exception (stored under
the `error` metadata key; no claim inspects this text, so the body rendering
of the `RuntimeError` message is elided beyond the status). -/
def errStr : PyErr → Str
  | .api e => chars "HTTP " ++ Nat.toDigits 10 e.status
  | .typeErr => chars "AttributeError"

/-- Embedding of `GitHubClient._get_json` (lines 53–66): builds the rate dict
from the headers, raises for status ≥ 400, otherwise returns body and rate. -/
def _get_json (resp : HttpResponse) : Except PyErr (Value × Rate) :=
  let rate : Rate :=
    ⟨hget resp.headers (chars "x-ratelimit-limit"),
     hget resp.headers (chars "x-ratelimit-remaining"),
     hget resp.headers (chars "x-ratelimit-reset"),
     resp.status⟩
  if resp.status ≥ 400 then .error (.api ⟨resp.status, resp.body⟩)
  else .ok (resp.body, rate)

/-- Embedding of `GitHubClient.get_default_branch`: `_get_json` on the repo
URL, then `data.get("default_branch", "main")`.  The `ref` argument only
determines the request URL in the source; the response it elicits is the
`resp` argument.  A non-dict body makes `.get` raise `AttributeError`. -/
def get_default_branch (_ref : RepoRef) (resp : HttpResponse) :
    Except PyErr (Value × Rate) :=
  match _get_json resp with
  | .error e => .error e
  | .ok (data, rate) =>
    match data with
    | .dict kvs =>
      .ok ((dget kvs (chars "default_branch")).getD (.str (chars "main")), rate)
    | _ => .error .typeErr

/-- The loop body of `get_tree_paths`: `for item in tree: p = item.get("path");
if p: paths.add(p)`.  A non-dict item makes `.get` raise. -/
def collectPaths : List Value → Except PyErr (List Value)
  | [] => .ok []
  | item :: rest =>
    match item with
    | .dict kvs =>
      match collectPaths rest with
      | .error e => .error e
      | .ok ps =>
        match dget kvs (chars "path") with
        | some p => if truthy p then .ok (p :: ps) else .ok ps
        | none => .ok ps
    | _ => .error .typeErr

/-- Embedding of `GitHubClient.get_tree_paths`: `_get_json` on the tree URL,
then collect every truthy `path` field of `data.get("tree", [])`.  (The
result is a Python `set`; all later uses are order/multiplicity-insensitive,
so a list is an adequate model.)  Iterating a non-list `tree` value: an empty
dict or string iterates zero times; a non-empty one yields non-dict items and
raises; other values are not iterable and raise `TypeError`. -/
def get_tree_paths (_ref : RepoRef) (_branch : Value) (resp : HttpResponse) :
    Except PyErr (List Value × Rate) :=
  match _get_json resp with
  | .error e => .error e
  | .ok (data, rate) =>
    match data with
    | .dict kvs =>
      match (dget kvs (chars "tree")).getD (.list []) with
      | .list items =>
        match collectPaths items with
        | .error e => .error e
        | .ok ps => .ok (ps, rate)
      | .dict m => if m.isEmpty then .ok ([], rate) else .error .typeErr
      | .str s => if s.isEmpty then .ok ([], rate) else .error .typeErr
      | _ => .error .typeErr
    | _ => .error .typeErr

/-! ## Build-System Detector (`detect_build_systems`, lines 95–177) -/

/-- The fixed boolean signal set (keys of the `booleans` dict, lines 154–169). -/
structure BuildSignals where
  makefile : Bool
  bazel : Bool
  justfile : Bool
  goreleaser : Bool
  dockerfile : Bool
  mage : Bool
  gotask : Bool
  gomod : Bool
  gowork : Bool
  buf : Bool
  drone : Bool
  github_actions : Bool
  circleci : Bool
  gitlab_ci : Bool

/-- The `meta` dict produced by the detector (lines 171–175). -/
structure DetectMeta where
  files_present : List Str
  ci_providers : List Str
  detected_file_count : Nat

/-- Embedding of the inner `exists_any`: some candidate, lowercased, is a
member of the lowercased path set. -/
def existsAny (lowerPaths : List Str) (cands : List Str) : Bool :=
  cands.any (fun c => lowerPaths.any (fun q => q == lowerL c))

/-- The `(human-readable name, flag)` table used to build `files_present`
(lines 126–141), in source order. -/
def filesPairs (s : BuildSignals) : List (Str × Bool) :=
  [(chars "Makefile", s.makefile), (chars "Bazel", s.bazel),
   (chars "Justfile", s.justfile), (chars "Goreleaser", s.goreleaser),
   (chars "Dockerfile", s.dockerfile), (chars "Magefile", s.mage),
   (chars "Taskfile", s.gotask), (chars "go.mod", s.gomod),
   (chars "go.work", s.gowork), (chars "buf", s.buf),
   (chars "Drone", s.drone), (chars "GitHub Actions", s.github_actions),
   (chars "CircleCI", s.circleci), (chars "GitLab CI", s.gitlab_ci)]

/-- The CI-provider table (lines 145–152), in source order. -/
def ciPairs (s : BuildSignals) : List (Str × Bool) :=
  [(chars "github_actions", s.github_actions), (chars "circleci", s.circleci),
   (chars "gitlab_ci", s.gitlab_ci), (chars "drone", s.drone)]

/-- `[name for name, present in pairs if present]`. -/
def selectNames (pairs : List (Str × Bool)) : List Str :=
  (pairs.filter (fun nb => nb.2)).map (fun nb => nb.1)

/-- Embedding of `detect_build_systems` (lines 95–177), rule for rule. -/
def detect_build_systems (paths : List Str) : BuildSignals × DetectMeta :=
  let lowerPaths := paths.map lowerL
  let makefile :=
    existsAny lowerPaths [chars "makefile", chars "gnu\nmakefile", chars "gnu-makefile"] ||
      paths.any (fun p => endsWithL p (chars "/Makefile") || endsWithL p (chars "/makefile"))
  let bazel :=
    existsAny lowerPaths [chars "workspace", chars "workspace.bazel"] ||
      paths.any (fun p =>
        endsWithL p (chars "/WORKSPACE") || endsWithL p (chars "/WORKSPACE.bazel") ||
        endsWithL p (chars ".bzl") || endsWithL p (chars "BUILD") ||
        endsWithL p (chars "BUILD.bazel"))
  let justfile :=
    existsAny lowerPaths [chars "justfile"] ||
      paths.any (fun p => endsWithL p (chars "/Justfile"))
  let goreleaser :=
    existsAny lowerPaths
        [chars ".goreleaser.yml", chars ".goreleaser.yaml",
         chars "goreleaser.yml", chars "goreleaser.yaml"] ||
      paths.any (fun p =>
        endsWithL (lowerL p) (chars "/.goreleaser.yml") ||
        endsWithL (lowerL p) (chars "/.goreleaser.yaml"))
  let dockerfile :=
    existsAny lowerPaths [chars "dockerfile"] ||
      paths.any (fun p => endsWithL p (chars "/Dockerfile"))
  let mage :=
    paths.any (fun p =>
      endsWithL (lowerL p) (chars "/magefile.go") || lowerL p == chars "magefile.go")
  let gotask :=
    paths.any (fun p =>
      endsWithL (lowerL p) (chars "/taskfile.yml") || lowerL p == chars "taskfile.yml")
  let gomod :=
    paths.any (fun p => p == chars "go.mod" || endsWithL p (chars "/go.mod"))
  let gowork :=
    paths.any (fun p => p == chars "go.work" || endsWithL p (chars "/go.work"))
  let buf :=
    paths.any (fun p =>
      p == chars "buf.yaml" || p == chars "buf.yml" ||
      endsWithL p (chars "/buf.yaml") || endsWithL p (chars "/buf.yml"))
  let drone :=
    paths.any (fun p => p == chars ".drone.yml" || endsWithL p (chars "/.drone.yml"))
  let github_actions :=
    paths.any (fun p => startsL p (chars ".github/workflows/"))
  let circleci :=
    paths.any (fun p =>
      p == chars ".circleci/config.yml" || endsWithL p (chars "/.circleci/config.yml"))
  let gitlab_ci :=
    paths.any (fun p =>
      p == chars ".gitlab-ci.yml" || endsWithL p (chars "/.gitlab-ci.yml"))
  let signals : BuildSignals :=
    ⟨makefile, bazel, justfile, goreleaser, dockerfile, mage, gotask,
     gomod, gowork, buf, drone, github_actions, circleci, gitlab_ci⟩
  let files_present := selectNames (filesPairs signals)
  let ci_providers := selectNames (ciPairs signals)
  (signals, ⟨files_present, ci_providers, files_present.length⟩)

/-! ## Enrichment Orchestrator (`enrich_entry`, lines 180–225) -/

/-- The two HTTP responses a single record's enrichment can elicit: the
repo-info response (for `get_default_branch`) and the tree response (for
`get_tree_paths`). -/
structure GhWorld where
  repoResp : HttpResponse
  treeResp : HttpResponse

def urlKey : Str := chars "url"

def bmKey : Str := chars "build_metadata"

/-- The keys of the boolean signal set merged into a record's top level. -/
def signalKeys : List Str :=
  [chars "makefile", chars "bazel", chars "justfile", chars "goreleaser",
   chars "dockerfile", chars "mage", chars "gotask", chars "gomod",
   chars "gowork", chars "buf", chars "drone", chars "github_actions",
   chars "circleci", chars "gitlab_ci"]

/-- The `booleans` dict of the detector in insertion order (lines 154–169),
as merged into the record by `for k, v in booleans.items(): entry[k] = v`. -/
def booleansList (s : BuildSignals) : List (Str × Bool) :=
  [(chars "makefile", s.makefile), (chars "bazel", s.bazel),
   (chars "justfile", s.justfile), (chars "goreleaser", s.goreleaser),
   (chars "dockerfile", s.dockerfile), (chars "mage", s.mage),
   (chars "gotask", s.gotask), (chars "gomod", s.gomod),
   (chars "gowork", s.gowork), (chars "buf", s.buf),
   (chars "drone", s.drone), (chars "github_actions", s.github_actions),
   (chars "circleci", s.circleci), (chars "gitlab_ci", s.gitlab_ci)]

/-- `for k, v in booleans.items(): entry[k] = v`. -/
def applySignals (e : Entry) (s : BuildSignals) : Entry :=
  (booleansList s).foldl (fun acc kb => setL acc kb.1 (Value.bool kb.2)) e

/-- `entry.setdefault("build_metadata", {}); entry["build_metadata"].update(kvs)`.
When a pre-existing `build_metadata` value is not a dict, `.update` raises
`AttributeError`. -/
def updateBm (e : Entry) (kvs : List (Str × Value)) : Except PyErr Entry :=
  let e1 := dsetdefault e bmKey (.dict [])
  match dget e1 bmKey with
  | some (.dict m) => .ok (setL e1 bmKey (.dict (dupdate m kvs)))
  | _ => .error .typeErr

/-- Converts a path-value list to strings; `none` when some element is not a
string, in which case `detect_build_systems` in Python would raise
`AttributeError` at `p.lower()`. -/
def asStrs : List Value → Option (List Str)
  | [] => some []
  | .str s :: rest => (asStrs rest).map (fun l => s :: l)
  | _ :: _ => none

/-- Models `str(v)` of the Option-valued rate header. -/
def optV : Option Str → Value
  | none => .null
  | some s => .str s

/-- The metadata block merged on the no-match branch (lines 188–193). -/
def noMatchKvs (ts : Str) : List (Str × Value) :=
  [(chars "repo_host", .str (chars "unknown")),
   (chars "note", .str (chars "Non-GitHub repositories not yet supported")),
   (chars "detection_timestamp", .str ts)]

/-- The metadata block merged on the success branch (lines 206–214). -/
def successKvs (r : RepoRef) (branch : Value) (ts : Str) (rate : Rate)
    (meta : DetectMeta) : List (Str × Value) :=
  [(chars "repo_host", .str r.host),
   (chars "owner", .str r.owner),
   (chars "repo", .str r.repo),
   (chars "repo_default_branch", branch),
   (chars "detection_timestamp", .str ts),
   (chars "api_rate_limit_remaining", optV rate.remaining),
   (chars "files_present", .list (meta.files_present.map .str)),
   (chars "ci_providers", .list (meta.ci_providers.map .str)),
   (chars "detected_file_count", .int (Int.ofNat meta.detected_file_count))]

/-- The metadata block merged on the per-record error branch (lines 217–224). -/
def errKvs (r : RepoRef) (err : PyErr) (ts : Str) : List (Str × Value) :=
  [(chars "repo_host", .str r.host),
   (chars "owner", .str r.owner),
   (chars "repo", .str r.repo),
   (chars "error", .str (errStr err)),
   (chars "detection_timestamp", .str ts)]

/-- The `except Exception` branch of `enrich_entry`.  If the record's
pre-existing `build_metadata` is not a dict the branch itself raises again
(`updateBm` yields `.error`), which propagates out of `enrich_entry`. -/
def errBranch (e : Entry) (r : RepoRef) (err : PyErr) (ts : Str) :
    Except PyErr Entry :=
  updateBm e (errKvs r err ts)

/-- Embedding of `enrich_entry` (lines 180–225).  `w` supplies the HTTP
responses of this record's two requests; `ts` the value of `now_iso()`. -/
def enrichEntry (entry : Entry) (w : GhWorld) (ts : Str) : Except PyErr Entry :=
  match dget entry urlKey with
  | none => .ok entry
  | some (.str url) =>
    match parse_repo url with
    | none => updateBm entry (noMatchKvs ts)
    | some r =>
      match get_default_branch r w.repoResp with
      | .error e => errBranch entry r e ts
      | .ok (branch, _rateRepo) =>
        match get_tree_paths r branch w.treeResp with
        | .error e => errBranch entry r e ts
        | .ok (pathVals, rateTree) =>
          match asStrs pathVals with
          | none => errBranch entry r .typeErr ts
          | some paths =>
            let res := detect_build_systems paths
            let e1 := applySignals entry res.1
            match updateBm e1 (successKvs r branch ts rateTree res.2) with
            | .ok e2 => .ok e2
            | .error _ => .error .typeErr
  | some _ => .ok entry

/-! ## Batch Driver (`process_file`, lines 255–256)

`tasks = [enrich_entry(entry, gh) for entry in data]` followed by
`await asyncio.gather(*tasks)`: results are indexed by original position;
an exception escaping any task aborts the batch. -/

/-- The enrichment fan-out over the ordered record list, each record paired
with the responses the server gives its requests. -/
def processEntries (l : List (Entry × GhWorld)) (ts : Str) :
    Except PyErr (List Entry) :=
  match l with
  | [] => .ok []
  | ew :: rest =>
    match enrichEntry ew.1 ew.2 ts with
    | .error e => .error e
    | .ok e' =>
      match processEntries rest ts with
      | .error e => .error e
      | .ok out => .ok (e' :: out)

/-! ## The permit pool (`asyncio.Semaphore(concurrency)`, lines 36–40, 53–66)

Every network call runs inside `async with self._sem:`, i.e. acquires one of
the `N` permits before `session.get` is issued and releases it when the block
exits — on success, exception, or timeout alike.  The semaphore and the
cooperative scheduler are modelled from their documented semantics as a
transition system: one flag per task, `true` while the task holds a permit
(its request is in flight); an acquire transition is only enabled while
fewer than `N` flags are set. -/

/-- One flag per task: `true` = holding a permit / request in flight. -/
abbrev PoolState := List Bool

/-- The number of simultaneously in-flight network calls. -/
def inFlightCount (s : PoolState) : Nat := s.countP id

/-- The transitions of the permit pool.  `acquire` models
`await self._sem.acquire()` (only enabled when a permit is free);
`release` models the exit of the `async with` block, taken regardless
of the outcome of the request. -/
inductive PoolStep (N : Nat) : PoolState → PoolState → Prop where
  | acquire (s : PoolState) (i : Nat) (hi : i < s.length)
      (hfree : s.getD i false = false)
      (hcap : inFlightCount s < N) : PoolStep N s (s.set i true)
  | release (s : PoolState) (i : Nat) (hi : i < s.length)
      (hheld : s.getD i false = true) : PoolStep N s (s.set i false)

/-- The reachable pool states of a batch of `M` tasks: initially no task
holds a permit; then any interleaving of acquires and releases. -/
inductive PoolReach (N M : Nat) : PoolState → Prop where
  | init : PoolReach N M (List.replicate M false)
  | step {s t : PoolState} : PoolReach N M s → PoolStep N s t → PoolReach N M t

/-! ## Predicates used to state the claims -/

/-- The spec's makefile rule, stated from its words: some path's *filename*
is `Makefile` compared case-insensitively, at root or at any depth. -/
abbrev specMakefile (paths : List Str) : Prop :=
  ∃ p ∈ paths, lowerL (fileName p) = chars "makefile"

/-- The spec's bazel rule, stated from its words: some path's filename is
`WORKSPACE`, `WORKSPACE.bazel`, `BUILD` or `BUILD.bazel`, or some path ends
with the extension `.bzl`. -/
abbrev specBazel (paths : List Str) : Prop :=
  ∃ p ∈ paths,
    fileName p = chars "WORKSPACE" ∨ fileName p = chars "WORKSPACE.bazel" ∨
    fileName p = chars "BUILD" ∨ fileName p = chars "BUILD.bazel" ∨
    endsWithL p (chars ".bzl") = true

/-- The record's `build_metadata` value is absent or a dict, so that
`entry["build_metadata"].update(...)` does not raise. -/
def bmOkB (e : Entry) : Bool :=
  match dget e bmKey with
  | none => true
  | some (.dict _) => true
  | some _ => false

/-- The pre-existing `build_metadata` dict of a record ( `[]` when absent). -/
def bmOrEmpty (e : Entry) : Entry :=
  match dget e bmKey with
  | some (.dict m) => m
  | _ => []

/-- The parsed reference of a record's `url` field, when the field is a
string that matches the supported hosting convention. -/
def urlRef (e : Entry) : Option RepoRef :=
  match dget e urlKey with
  | some (.str u) => parse_repo u
  | _ => none

/-- All 14 signal keys are present on the record, with boolean values. -/
def hasAllSignals (e : Entry) : Prop :=
  ∀ key ∈ signalKeys, ∃ b, dget e key = some (Value.bool b)

/-- The hypothesis of a record whose two client calls both succeed and whose
tree paths are all strings (so the detector runs without raising). -/
def goodWorld (e : Entry) (w : GhWorld) : Prop :=
  ∃ r, urlRef e = some r ∧
    ∃ bv rr, get_default_branch r w.repoResp = .ok (bv, rr) ∧
      ∃ pv rt, get_tree_paths r bv w.treeResp = .ok (pv, rt) ∧
        ∃ strs, asStrs pv = some strs

/-- The hypothesis of a record whose reference resolution fails with the
HTTP-status ≥ 400 `RuntimeError` (the spec's ApiError): the record's URL
parses, and the repo-info response carries an error status. -/
def badWorld (e : Entry) (w : GhWorld) : Prop :=
  (∃ r, urlRef e = some r) ∧ 400 ≤ w.repoResp.status

/-! ## Concrete fixtures (used by witnesses) -/

/-- A placeholder 200 response with a null body. -/
def emptyResp : HttpResponse := ⟨200, Value.null, []⟩

/-- A world whose responses are never consulted (for records that do not
reach the network). -/
def w0 : GhWorld := ⟨emptyResp, emptyResp⟩

/-- A sample `now_iso()` value. -/
def ts0 : Str := chars "2026-01-01T00:00:00+00:00"

/-- Default element for positional `List.getD` indexing of record lists. -/
def defaultEW : Entry × GhWorld := ([], w0)

/-- A successful repo-info response reporting default branch `dev`. -/
def repoOkResp : HttpResponse :=
  ⟨200, Value.dict [(chars "default_branch", Value.str (chars "dev"))],
   [(chars "x-ratelimit-remaining", chars "57")]⟩

/-- A successful tree response listing a single file `go.mod`. -/
def treeOkResp : HttpResponse :=
  ⟨200,
   Value.dict
     [(chars "tree", Value.list [Value.dict [(chars "path", Value.str (chars "go.mod"))]])],
   [(chars "x-ratelimit-remaining", chars "56")]⟩

/-- The world of a record whose two calls both succeed. -/
def wGood : GhWorld := ⟨repoOkResp, treeOkResp⟩

/-- A 404 repo-info response (reference resolution fails with ApiError). -/
def repo404 : HttpResponse :=
  ⟨404, Value.dict [(chars "message", Value.str (chars "Not Found"))], []⟩

/-- The world of a record whose reference resolution raises. -/
def wBad : GhWorld := ⟨repo404, emptyResp⟩

/-- Sample records with parseable GitHub URLs. -/
def entryA : Entry :=
  [(chars "name", Value.str (chars "pkg-a")),
   (urlKey, Value.str (chars "https://github.com/ownerA/repoA"))]

def entryB : Entry :=
  [(chars "name", Value.str (chars "pkg-b")),
   (urlKey, Value.str (chars "https://github.com/ownerB/repoB"))]

/-- A record with a non-GitHub URL and a pre-existing `build_metadata` dict. -/
def entryC : Entry :=
  [(urlKey, Value.str (chars "https://example.com/owner/repo")),
   (bmKey, Value.dict [(chars "repo_host", Value.str (chars "github"))])]

/-- A record without a `url` key. -/
def entryD : Entry := [(chars "name", Value.str (chars "no-url"))]

/-- A sample reference. -/
def refA : RepoRef := ⟨chars "github", chars "ownerA", chars "repoA"⟩

/-- A 200 repo-info response whose body omits `default_branch`. -/
def repoNoBranchResp : HttpResponse := ⟨200, Value.dict [], []⟩

/-! ## Supporting lemmas: strings -/

theorem takeWhile_append_sat {q : Char → Bool} {a : Str} (b : Char) (rest : Str)
    (ha : ∀ c ∈ a, q c = true) (hb : q b = false) :
    (a ++ b :: rest).takeWhile q = a := by
  induction a with
  | nil => simp [List.takeWhile_cons, hb]
  | cons x xs ih =>
    have hx : q x = true := ha x (by simp)
    simp only [List.cons_append, List.takeWhile_cons, hx, if_true]
    rw [ih (fun c hc => ha c (by simp [hc]))]

theorem dropWhile_head_not (q : Char → Bool) :
    ∀ {l : Str} {d : Char} {ds : Str}, l.dropWhile q = d :: ds → q d = false := by
  intro l
  induction l with
  | nil => intro d ds h; simp [List.dropWhile] at h
  | cons x xs ih =>
    intro d ds h
    rw [List.dropWhile_cons] at h
    by_cases hx : q x = true
    · rw [if_pos hx] at h; exact ih h
    · rw [if_neg hx] at h
      cases h
      exact Bool.not_eq_true _ |>.mp hx

/-- The case-sensitive suffix test `p.endswith("/" + w)` (for slash-free `w`)
says exactly: the filename of `p` is `w` and `p` is not just its filename
(i.e. the match is at a nested position). -/
theorem ends_slash_iff (p w : Str) (hw : '/' ∉ w) :
    endsWithL p ('/' :: w) = true ↔ (fileName p = w ∧ p ≠ fileName p) := by
  have hq : ∀ c ∈ w.reverse, (c != '/') = true := by
    intro c hc
    simp only [List.mem_reverse] at hc
    simp only [bne_iff_ne, ne_eq]
    intro h; exact hw (h ▸ hc)
  constructor
  · intro h
    rw [endsWithL, decide_eq_true_eq] at h
    obtain ⟨t, ht⟩ := h
    subst ht
    have hrev : (t ++ '/' :: w).reverse = w.reverse ++ '/' :: t.reverse := by
      simp
    have htk : ((t ++ '/' :: w).reverse.takeWhile (fun c => c != '/')) = w.reverse := by
      rw [hrev]
      exact takeWhile_append_sat _ _ hq (by simp)
    constructor
    · rw [fileName, htk, List.reverse_reverse]
    · intro hcontra
      have := congrArg List.length hcontra
      rw [fileName, htk, List.reverse_reverse] at this
      simp at this
      omega
  · rintro ⟨h1, h2⟩
    have htk : p.reverse.takeWhile (fun c => c != '/') = w.reverse := by
      rw [fileName] at h1
      have := congrArg List.reverse h1
      rwa [List.reverse_reverse] at this
    have hsplit :=
      List.takeWhile_append_dropWhile (fun c => c != '/') p.reverse
    cases hdp : p.reverse.dropWhile (fun c => c != '/') with
    | nil =>
      exfalso
      rw [hdp, List.append_nil, htk] at hsplit
      have hpw : p = w := by
        have := congrArg List.reverse hsplit
        simpa using this.symm
      exact h2 (by rw [h1]; exact hpw)
    | cons d ds =>
      have hd : (d != '/') = false := dropWhile_head_not (fun c => c != '/') hdp
      have hd' : d = '/' := by
        simpa using hd
      subst hd'
      rw [hdp, htk] at hsplit
      have hp : p = ds.reverse ++ '/' :: w := by
        have := congrArg List.reverse hsplit
        rw [List.reverse_reverse] at this
        rw [← this]
        simp
      rw [endsWithL, decide_eq_true_eq]
      exact ⟨ds.reverse, hp.symm⟩

theorem any_any_swap {α β : Type} (l₁ : List α) (l₂ : List β) (g : α → β → Bool) :
    l₁.any (fun a => l₂.any (fun b => g a b)) =
      l₂.any (fun b => l₁.any (fun a => g a b)) := by
  rw [Bool.eq_iff_iff]
  simp only [List.any_eq_true]
  tauto

theorem any_or_split {α : Type} (l : List α) (f g : α → Bool) :
    (l.any f || l.any g) = l.any (fun a => f a || g a) := by
  rw [Bool.eq_iff_iff]
  simp only [Bool.or_eq_true, List.any_eq_true]
  constructor
  · rintro (⟨x, hx, hf⟩ | ⟨x, hx, hg⟩)
    · exact ⟨x, hx, Or.inl hf⟩
    · exact ⟨x, hx, Or.inr hg⟩
  · rintro ⟨x, hx, hf | hg⟩
    · exact Or.inl ⟨x, hx, hf⟩
    · exact Or.inr ⟨x, hx, hg⟩

/-! ## Supporting lemmas: dict operations -/

theorem lookup_setL_self {α : Type} (d : List (Str × α)) (k : Str) (v : α) :
    lookupL (setL d k v) k = some v := by
  induction d with
  | nil => simp [setL, lookupL]
  | cons kv rest ih =>
    by_cases h : kv.1 = k
    · simp [setL, h, lookupL]
    · simp [setL, h, lookupL, ih]

theorem lookup_setL_ne {α : Type} (d : List (Str × α)) (k k' : Str) (v : α)
    (h : k' ≠ k) : lookupL (setL d k v) k' = lookupL d k' := by
  have h' : k ≠ k' := Ne.symm h
  induction d with
  | nil => simp [setL, lookupL, h']
  | cons kv rest ih =>
    by_cases hk : kv.1 = k
    · subst hk
      simp only [setL, if_pos rfl]
      simp [lookupL, h']
    · simp only [setL, if_neg hk]
      by_cases hk' : kv.1 = k'
      · simp [lookupL, hk']
      · simp [lookupL, hk', ih]

theorem lookup_append_none {α : Type} (a b : List (Str × α)) (k : Str)
    (h : lookupL a k = none) : lookupL (a ++ b) k = lookupL b k := by
  induction a with
  | nil => rfl
  | cons kv rest ih =>
    rw [List.cons_append]
    simp only [lookupL] at h ⊢
    by_cases hk : kv.1 = k
    · rw [if_pos hk] at h; simp at h
    · rw [if_neg hk] at h ⊢; exact ih h

theorem lookup_append_some {α : Type} (a b : List (Str × α)) (k : Str) (v : α)
    (h : lookupL a k = some v) : lookupL (a ++ b) k = some v := by
  induction a with
  | nil => simp [lookupL] at h
  | cons kv rest ih =>
    rw [List.cons_append]
    simp only [lookupL] at h ⊢
    by_cases hk : kv.1 = k
    · rw [if_pos hk] at h ⊢; exact h
    · rw [if_neg hk] at h ⊢; exact ih h

theorem dget_dsetdefault_ne (d : Entry) (k k' : Str) (v : Value) (h : k' ≠ k) :
    dget (dsetdefault d k v) k' = dget d k' := by
  have h' : k ≠ k' := Ne.symm h
  rw [dsetdefault]
  split
  · rfl
  · cases hd : dget d k' with
    | none =>
      simp only [dget] at hd ⊢
      rw [lookup_append_none _ _ _ hd]
      simp [lookupL, h']
    | some u =>
      simp only [dget] at hd ⊢
      rw [lookup_append_some _ _ _ _ hd]

theorem dget_dsetdefault_self (d : Entry) (k : Str) (v : Value) :
    dget (dsetdefault d k v) k = some ((dget d k).getD v) := by
  rw [dsetdefault]
  cases hd : dget d k with
  | none =>
    simp only [Option.isSome_none, Bool.false_eq_true, if_false, Option.getD_none]
    simp only [dget] at hd ⊢
    rw [lookup_append_none _ _ _ hd]
    simp [lookupL]
  | some u =>
    simp only [Option.isSome_some, if_true, Option.getD_some]
    exact hd

theorem lookup_applyList_not_mem (l : List (Str × Bool)) (d : Entry) (key : Str)
    (h : key ∉ l.map Prod.fst) :
    dget (l.foldl (fun a kb => setL a kb.1 (Value.bool kb.2)) d) key = dget d key := by
  induction l generalizing d with
  | nil => rfl
  | cons kb rest ih =>
    simp only [List.map_cons, List.mem_cons, not_or] at h
    rw [List.foldl_cons]
    rw [ih _ h.2]
    exact lookup_setL_ne d kb.1 key (Value.bool kb.2) h.1

theorem lookup_applyList_mem (l : List (Str × Bool)) (d : Entry) (key : Str)
    (h : key ∈ l.map Prod.fst) :
    ∃ b, dget (l.foldl (fun a kb => setL a kb.1 (Value.bool kb.2)) d) key =
      some (Value.bool b) := by
  induction l generalizing d with
  | nil => simp at h
  | cons kb rest ih =>
    rw [List.foldl_cons]
    by_cases hr : key ∈ rest.map Prod.fst
    · exact ih _ hr
    · simp only [List.map_cons, List.mem_cons] at h
      have hk : key = kb.1 := h.resolve_right hr
      subst hk
      refine ⟨kb.2, ?_⟩
      rw [lookup_applyList_not_mem _ _ _ hr]
      exact lookup_setL_self d kb.1 (Value.bool kb.2)

/-! ## Characterization of the makefile and bazel rules -/

theorem makefile_point (p : Str) :
    (lowerL p == chars "makefile" || (lowerL p == chars "gnu\nmakefile" ||
      (lowerL p == chars "gnu-makefile" || false)) ||
      (endsWithL p (chars "/Makefile") || endsWithL p (chars "/makefile"))) = true ↔
    (lowerL p = chars "makefile" ∨ lowerL p = chars "gnu\nmakefile" ∨
      lowerL p = chars "gnu-makefile" ∨
      ((fileName p = chars "Makefile" ∨ fileName p = chars "makefile") ∧
        p ≠ fileName p)) := by
  have h1 : endsWithL p (chars "/Makefile") = true ↔
      (fileName p = chars "Makefile" ∧ p ≠ fileName p) :=
    ends_slash_iff p (chars "Makefile") (by decide)
  have h2 : endsWithL p (chars "/makefile") = true ↔
      (fileName p = chars "makefile" ∧ p ≠ fileName p) :=
    ends_slash_iff p (chars "makefile") (by decide)
  simp only [Bool.or_eq_true, beq_iff_eq, Bool.false_eq_true, or_false]
  rw [h1, h2]
  tauto

theorem bazel_point (p : Str) :
    (lowerL p == chars "workspace" || (lowerL p == chars "workspace.bazel" || false) ||
      (endsWithL p (chars "/WORKSPACE") || endsWithL p (chars "/WORKSPACE.bazel") ||
        endsWithL p (chars ".bzl") || endsWithL p (chars "BUILD") ||
        endsWithL p (chars "BUILD.bazel"))) = true ↔
    (lowerL p = chars "workspace" ∨ lowerL p = chars "workspace.bazel" ∨
      (fileName p = chars "WORKSPACE" ∧ p ≠ fileName p) ∨
      (fileName p = chars "WORKSPACE.bazel" ∧ p ≠ fileName p) ∨
      endsWithL p (chars ".bzl") = true ∨ endsWithL p (chars "BUILD") = true ∨
      endsWithL p (chars "BUILD.bazel") = true) := by
  have h1 : endsWithL p (chars "/WORKSPACE") = true ↔
      (fileName p = chars "WORKSPACE" ∧ p ≠ fileName p) :=
    ends_slash_iff p (chars "WORKSPACE") (by decide)
  have h2 : endsWithL p (chars "/WORKSPACE.bazel") = true ↔
      (fileName p = chars "WORKSPACE.bazel" ∧ p ≠ fileName p) :=
    ends_slash_iff p (chars "WORKSPACE.bazel") (by decide)
  simp only [Bool.or_eq_true, beq_iff_eq, Bool.false_eq_true, or_false]
  rw [h1, h2]
  simp only [or_assoc]

/-! ## Claims C2–C6 -/

/-- C2, counterexample: the claim says the makefile signal is true iff some
path's *filename* is `Makefile` case-insensitively at any depth, but for the
path set `{"dir/MAKEFILE"}` (a nested uppercase makefile) the detector
reports `false` while the claimed rule says `true`. -/
theorem claim_C2_counterexample :
    ¬ (((detect_build_systems [chars "dir/MAKEFILE"]).1.makefile = true) ↔
        specMakefile [chars "dir/MAKEFILE"]) := by
  decide

/-- C2 (amended): the makefile signal is true iff some path, lowercased in
full, equals `makefile`, `gnu\nmakefile` or `gnu-makefile` (a root-level
match, any case), or some nested path's final segment is exactly `Makefile`
or `makefile` (case-sensitive).  In particular a nested `dir/MAKEFILE` is
*not* detected, and a root-level `GNU-Makefile` is. -/
theorem claim_C2 (paths : List Str) :
    (detect_build_systems paths).1.makefile = true ↔
      ∃ p ∈ paths,
        lowerL p = chars "makefile" ∨ lowerL p = chars "gnu\nmakefile" ∨
        lowerL p = chars "gnu-makefile" ∨
        ((fileName p = chars "Makefile" ∨ fileName p = chars "makefile") ∧
          p ≠ fileName p) := by
  have hd : (detect_build_systems paths).1.makefile =
      (existsAny (paths.map lowerL)
          [chars "makefile", chars "gnu\nmakefile", chars "gnu-makefile"] ||
        paths.any (fun p =>
          endsWithL p (chars "/Makefile") || endsWithL p (chars "/makefile"))) := rfl
  rw [hd]
  simp only [existsAny, List.any_map, Function.comp]
  rw [any_any_swap, any_or_split, List.any_eq_true]
  exact exists_congr fun p => and_congr_right fun _ => makefile_point p

/-- C3, counterexample: the claim says only the exact filenames `WORKSPACE`,
`WORKSPACE.bazel`, `BUILD`, `BUILD.bazel` or a `.bzl` extension trigger the
bazel signal, and names merely *ending* in `BUILD` (such as `REBUILD`) do
not; but for the path set `{"REBUILD"}` the detector reports `true` (its
rule is the raw suffix test `p.endswith("BUILD")`) while the claimed rule
says `false`. -/
theorem claim_C3_counterexample :
    ¬ (((detect_build_systems [chars "REBUILD"]).1.bazel = true) ↔
        specBazel [chars "REBUILD"]) := by
  decide

/-- C3 (amended): the bazel signal is true iff some path, lowercased in
full, equals `workspace` or `workspace.bazel` (a root-level match, any
case), or some nested path's final segment is exactly `WORKSPACE` or
`WORKSPACE.bazel` (case-sensitive), or some path ends in `.bzl`, or some
path merely ends in the letters `BUILD` or `BUILD.bazel` — even as part of a
longer filename such as `REBUILD`. -/
theorem claim_C3 (paths : List Str) :
    (detect_build_systems paths).1.bazel = true ↔
      ∃ p ∈ paths,
        lowerL p = chars "workspace" ∨ lowerL p = chars "workspace.bazel" ∨
        (fileName p = chars "WORKSPACE" ∧ p ≠ fileName p) ∨
        (fileName p = chars "WORKSPACE.bazel" ∧ p ≠ fileName p) ∨
        endsWithL p (chars ".bzl") = true ∨ endsWithL p (chars "BUILD") = true ∨
        endsWithL p (chars "BUILD.bazel") = true := by
  have hd : (detect_build_systems paths).1.bazel =
      (existsAny (paths.map lowerL) [chars "workspace", chars "workspace.bazel"] ||
        paths.any (fun p =>
          endsWithL p (chars "/WORKSPACE") || endsWithL p (chars "/WORKSPACE.bazel") ||
          endsWithL p (chars ".bzl") || endsWithL p (chars "BUILD") ||
          endsWithL p (chars "BUILD.bazel"))) := rfl
  rw [hd]
  simp only [existsAny, List.any_map, Function.comp]
  rw [any_any_swap, any_or_split, List.any_eq_true]
  exact exists_congr fun p => and_congr_right fun _ => bazel_point p

/-- C4: the Build-System Detector is deterministic (it is a pure function,
so two calls on the same path set are the same term) and total (it is
defined for every path set by construction), and the empty path set yields
the all-false signal structure with empty `files_present`, empty
`ci_providers` and `detected_file_count = 0`. -/
theorem claim_C4 :
    (∀ paths : List Str, detect_build_systems paths = detect_build_systems paths) ∧
      detect_build_systems [] =
        (⟨false, false, false, false, false, false, false, false, false, false,
          false, false, false, false⟩, ⟨[], [], 0⟩) :=
  ⟨fun _ => rfl, rfl⟩

/-- C5: for every path set, `files_present` has exactly
`detected_file_count` elements, and `ci_providers` is a sublist (subset in
that fixed relative order) of `[github_actions, circleci, gitlab_ci,
drone]`. -/
theorem claim_C5 (paths : List Str) :
    (detect_build_systems paths).2.files_present.length =
        (detect_build_systems paths).2.detected_file_count ∧
      List.Sublist (detect_build_systems paths).2.ci_providers
        [chars "github_actions", chars "circleci", chars "gitlab_ci",
         chars "drone"] := by
  refine ⟨rfl, ?_⟩
  have h1 : (detect_build_systems paths).2.ci_providers =
      selectNames (ciPairs (detect_build_systems paths).1) := rfl
  have h2 : [chars "github_actions", chars "circleci", chars "gitlab_ci",
      chars "drone"] =
      (ciPairs (detect_build_systems paths).1).map (fun nb => nb.1) := rfl
  rw [h1, h2, selectNames]
  exact (List.filter_sublist _).map _

/-! ## Lemmas about the enrichment pipeline -/

theorem dget_setL_self (d : Entry) (k : Str) (v : Value) :
    dget (setL d k v) k = some v := lookup_setL_self d k v

theorem dget_setL_ne (d : Entry) (k k' : Str) (v : Value) (h : k' ≠ k) :
    dget (setL d k v) k' = dget d k' := lookup_setL_ne d k k' v h

theorem booleansList_keys (s : BuildSignals) :
    (booleansList s).map Prod.fst = signalKeys := rfl

theorem signalKeys_ne_bm : ∀ k ∈ signalKeys, k ≠ bmKey := by decide

theorem bmKey_not_signal : bmKey ∉ signalKeys := by decide

theorem urlRef_cases (e : Entry) (r : RepoRef) (h : urlRef e = some r) :
    ∃ u, dget e urlKey = some (Value.str u) ∧ parse_repo u = some r := by
  unfold urlRef at h
  split at h
  · next u heq => exact ⟨u, heq, h⟩
  · next => exact absurd h (by simp)

theorem getJson_ok (resp : HttpResponse) (h : resp.status < 400) :
    _get_json resp = .ok (resp.body,
      ⟨hget resp.headers (chars "x-ratelimit-limit"),
       hget resp.headers (chars "x-ratelimit-remaining"),
       hget resp.headers (chars "x-ratelimit-reset"), resp.status⟩) := by
  unfold _get_json
  rw [if_neg (by omega)]

theorem getJson_err (resp : HttpResponse) (h : 400 ≤ resp.status) :
    _get_json resp = .error (.api ⟨resp.status, resp.body⟩) := by
  unfold _get_json
  rw [if_pos h]

theorem get_default_branch_err (r : RepoRef) (resp : HttpResponse)
    (h : 400 ≤ resp.status) :
    get_default_branch r resp = .error (.api ⟨resp.status, resp.body⟩) := by
  unfold get_default_branch
  rw [getJson_err resp h]

theorem bmOk_setdefault (e : Entry) (hbm : bmOkB e = true) :
    dget (dsetdefault e bmKey (Value.dict [])) bmKey =
      some (Value.dict (bmOrEmpty e)) := by
  have h := dget_dsetdefault_self e bmKey (Value.dict [])
  unfold bmOkB at hbm
  unfold bmOrEmpty
  cases hd : dget e bmKey with
  | none =>
    rw [hd] at h
    simpa using h
  | some v =>
    rw [hd] at h hbm
    cases v with
    | dict m => simpa using h
    | null => simp at hbm
    | bool b => simp at hbm
    | int n => simp at hbm
    | str s => simp at hbm
    | list xs => simp at hbm

theorem updateBm_eq_of (e : Entry) (kvs : List (Str × Value)) (m0 : Entry)
    (hs : dget (dsetdefault e bmKey (Value.dict [])) bmKey =
      some (Value.dict m0)) :
    updateBm e kvs = .ok (setL (dsetdefault e bmKey (Value.dict [])) bmKey
      (Value.dict (dupdate m0 kvs))) := by
  simp only [updateBm]
  rw [hs]

theorem updateBm_ok (e : Entry) (kvs : List (Str × Value)) (hbm : bmOkB e = true) :
    ∃ e', updateBm e kvs = .ok e' ∧
      dget e' bmKey = some (Value.dict (dupdate (bmOrEmpty e) kvs)) ∧
      ∀ key, key ≠ bmKey → dget e' key = dget e key := by
  have hs := bmOk_setdefault e hbm
  refine ⟨_, updateBm_eq_of e kvs _ hs, dget_setL_self _ _ _, ?_⟩
  intro key hkey
  rw [dget_setL_ne _ _ _ _ hkey]
  exact dget_dsetdefault_ne e bmKey key _ hkey

theorem enrich_noMatch (e : Entry) (w : GhWorld) (ts u : Str)
    (hu : dget e urlKey = some (Value.str u)) (hp : parse_repo u = none)
    (hbm : bmOkB e = true) :
    ∃ e', enrichEntry e w ts = .ok e' ∧
      dget e' bmKey = some (Value.dict (dupdate (bmOrEmpty e) (noMatchKvs ts))) ∧
      ∀ key, key ≠ bmKey → dget e' key = dget e key := by
  obtain ⟨e', he', hbm', hframe⟩ := updateBm_ok e (noMatchKvs ts) hbm
  refine ⟨e', ?_, hbm', hframe⟩
  have hE : enrichEntry e w ts = updateBm e (noMatchKvs ts) := by
    simp only [enrichEntry, hu, hp]
  rw [hE]
  exact he'

theorem enrich_err (e : Entry) (w : GhWorld) (ts : Str) (r : RepoRef)
    (err : PyErr) (hr : urlRef e = some r) (hbm : bmOkB e = true)
    (hb : get_default_branch r w.repoResp = .error err) :
    ∃ e', enrichEntry e w ts = .ok e' ∧
      ∀ key, key ≠ bmKey → dget e' key = dget e key := by
  obtain ⟨u, hu, hp⟩ := urlRef_cases e r hr
  obtain ⟨e', he', _, hframe⟩ := updateBm_ok e (errKvs r err ts) hbm
  refine ⟨e', ?_, hframe⟩
  have hE : enrichEntry e w ts = errBranch e r err ts := by
    simp only [enrichEntry, hu, hp, hb]
  rw [hE]
  exact he'

theorem enrich_success (e : Entry) (w : GhWorld) (ts : Str)
    (hg : goodWorld e w) (hbm : bmOkB e = true) :
    ∃ e', enrichEntry e w ts = .ok e' ∧ hasAllSignals e' ∧
      ∀ key, key ∉ signalKeys → key ≠ bmKey → dget e' key = dget e key := by
  obtain ⟨r, hr, bv, rr, hb, pv, rt, ht, strs, hs⟩ := hg
  obtain ⟨u, hu, hp⟩ := urlRef_cases e r hr
  have hbm1 : dget (applySignals e (detect_build_systems strs).1) bmKey =
      dget e bmKey := by
    unfold applySignals
    exact lookup_applyList_not_mem _ _ _
      (by rw [booleansList_keys]; exact bmKey_not_signal)
  have hbm2 : bmOkB (applySignals e (detect_build_systems strs).1) = true := by
    unfold bmOkB at hbm ⊢
    rw [hbm1]
    exact hbm
  obtain ⟨e2, he2, hbm', hframe2⟩ :=
    updateBm_ok (applySignals e (detect_build_systems strs).1)
      (successKvs r bv ts rt (detect_build_systems strs).2) hbm2
  refine ⟨e2, ?_, ?_, ?_⟩
  · simp only [enrichEntry, hu, hp, hb, ht, hs, he2]
  · intro key hkey
    rw [hframe2 key (signalKeys_ne_bm key hkey)]
    unfold applySignals
    apply lookup_applyList_mem
    rw [booleansList_keys]
    exact hkey
  · intro key hks hkb
    rw [hframe2 key hkb]
    unfold applySignals
    rw [lookup_applyList_not_mem _ _ _ (by rw [booleansList_keys]; exact hks)]

theorem processEntries_ok (l : List (Entry × GhWorld)) (ts : Str)
    (h : ∀ ew ∈ l, ∃ e', enrichEntry ew.1 ew.2 ts = .ok e') :
    ∃ out, processEntries l ts = .ok out ∧ out.length = l.length ∧
      ∀ i, i < l.length →
        enrichEntry (l.getD i defaultEW).1 (l.getD i defaultEW).2 ts =
          .ok (out.getD i []) := by
  induction l with
  | nil => exact ⟨[], rfl, rfl, fun i hi => absurd hi (by simp)⟩
  | cons ew rest ih =>
    obtain ⟨e1, he1⟩ := h ew (by simp)
    obtain ⟨out, hout, hlen, hpt⟩ := ih (fun x hx => h x (by simp [hx]))
    refine ⟨e1 :: out, ?_, by simp [hlen], ?_⟩
    · simp only [processEntries]
      rw [he1, hout]
    · intro i hi
      cases i with
      | zero => simpa using he1
      | succ n =>
        simp only [List.getD_cons_succ]
        exact hpt n (by simpa using hi)

/-- C6: `"https://github.com/owner/repo"` and
`"https://github.com/owner/repo/tree/main"` both parse to the reference
`{host := github, owner := owner, repo := repo}`, and
`"https://example.com/owner/repo"` parses to `none` — the no-match outcome
of the `Option` result, distinct from any raised error. -/
theorem claim_C6 :
    parse_repo (chars "https://github.com/owner/repo") =
        some ⟨chars "github", chars "owner", chars "repo"⟩ ∧
      parse_repo (chars "https://github.com/owner/repo/tree/main") =
        some ⟨chars "github", chars "owner", chars "repo"⟩ ∧
      parse_repo (chars "https://example.com/owner/repo") = none := by
  decide

/-- C7: `get_default_branch` returns the branch string reported by the forge
when the (non-error) response body carries `default_branch`; returns the
literal `"main"` when the body omits the field; and for HTTP status ≥ 400
fails with the ApiError carrying that status and the response body instead
of returning a branch. -/
theorem claim_C7 (r : RepoRef) (resp : HttpResponse) :
    (∀ kvs b, resp.status < 400 → resp.body = Value.dict kvs →
      dget kvs (chars "default_branch") = some (Value.str b) →
      ∃ rate, get_default_branch r resp = .ok (Value.str b, rate)) ∧
    (∀ kvs, resp.status < 400 → resp.body = Value.dict kvs →
      dget kvs (chars "default_branch") = none →
      ∃ rate, get_default_branch r resp = .ok (Value.str (chars "main"), rate)) ∧
    (400 ≤ resp.status →
      get_default_branch r resp = .error (.api ⟨resp.status, resp.body⟩)) := by
  refine ⟨?_, ?_, fun h => get_default_branch_err r resp h⟩
  · intro kvs b hlt hbody hbr
    refine ⟨⟨hget resp.headers (chars "x-ratelimit-limit"),
      hget resp.headers (chars "x-ratelimit-remaining"),
      hget resp.headers (chars "x-ratelimit-reset"), resp.status⟩, ?_⟩
    unfold get_default_branch
    rw [getJson_ok resp hlt, hbody]
    show Except.ok ((dget kvs (chars "default_branch")).getD (.str (chars "main")), _) = _
    rw [hbr]
    rfl
  · intro kvs hlt hbody hbr
    refine ⟨⟨hget resp.headers (chars "x-ratelimit-limit"),
      hget resp.headers (chars "x-ratelimit-remaining"),
      hget resp.headers (chars "x-ratelimit-reset"), resp.status⟩, ?_⟩
    unfold get_default_branch
    rw [getJson_ok resp hlt, hbody]
    show Except.ok ((dget kvs (chars "default_branch")).getD (.str (chars "main")), _) = _
    rw [hbr]
    rfl

/-- Witness for C7 at concrete responses: a 200 body reporting branch `dev`
yields `dev`; a 200 body without the field yields `main`; a 404 yields the
ApiError with status 404 and the 404 body. -/
theorem claim_C7_witness :
    (∃ rate, get_default_branch refA repoOkResp = .ok (Value.str (chars "dev"), rate)) ∧
      (∃ rate, get_default_branch refA repoNoBranchResp =
        .ok (Value.str (chars "main"), rate)) ∧
      get_default_branch refA repo404 = .error (.api ⟨404, repo404.body⟩) :=
  ⟨(claim_C7 refA repoOkResp).1 _ (chars "dev") (by decide) rfl rfl,
   (claim_C7 refA repoNoBranchResp).2.1 _ (by decide) rfl rfl,
   (claim_C7 refA repo404).2.2 (by decide)⟩

/-- C8, counterexample: the claim says enriching a record whose URL does not
parse "leaves every pre-existing key of the record unchanged and adds only a
`build_metadata` block".  For the record `entryC`, which already has a
`build_metadata` dict with `repo_host = "github"`, the pre-existing
`build_metadata` key's value is changed in place (its `repo_host` becomes
`"unknown"`, and `note`/`detection_timestamp` entries are merged in). -/
theorem claim_C8_counterexample :
    enrichEntry entryC w0 ts0 =
        .ok [(urlKey, Value.str (chars "https://example.com/owner/repo")),
             (bmKey, Value.dict
               [(chars "repo_host", Value.str (chars "unknown")),
                (chars "note",
                 Value.str (chars "Non-GitHub repositories not yet supported")),
                (chars "detection_timestamp", Value.str ts0)])] ∧
      dget entryC bmKey =
        some (Value.dict [(chars "repo_host", Value.str (chars "github"))]) ∧
      Value.dict [(chars "repo_host", Value.str (chars "unknown")),
                  (chars "note",
                   Value.str (chars "Non-GitHub repositories not yet supported")),
                  (chars "detection_timestamp", Value.str ts0)] ≠
        Value.dict [(chars "repo_host", Value.str (chars "github"))] := by
  refine ⟨rfl, rfl, ?_⟩
  intro h
  injection h with h
  have := congrArg List.length h
  simp at this

/-- C8 (amended): enriching a record whose URL string fails to parse leaves
every pre-existing key other than `build_metadata` unchanged (in particular
no boolean signal keys are added), ensures a `build_metadata` dict exists
(creating it when absent) and merges `repo_host = "unknown"`, a note and a
detection timestamp into it, preserving its other pre-existing entries.
(When a pre-existing `build_metadata` value is not a dict, the merge raises
instead; the `bmOkB` hypothesis excludes that.) -/
theorem claim_C8 (e : Entry) (w : GhWorld) (ts u : Str)
    (hu : dget e urlKey = some (Value.str u)) (hp : parse_repo u = none)
    (hbm : bmOkB e = true) :
    ∃ e' m, enrichEntry e w ts = .ok e' ∧
      (∀ key, key ≠ bmKey → dget e' key = dget e key) ∧
      dget e' bmKey = some (Value.dict m) ∧
      dget m (chars "repo_host") = some (Value.str (chars "unknown")) ∧
      (∀ key, key ≠ chars "repo_host" → key ≠ chars "note" →
        key ≠ chars "detection_timestamp" →
        dget m key = dget (bmOrEmpty e) key) := by
  obtain ⟨e', he', hbm', hframe⟩ := enrich_noMatch e w ts u hu hp hbm
  have hd : dupdate (bmOrEmpty e) (noMatchKvs ts) =
      setL (setL (setL (bmOrEmpty e)
          (chars "repo_host") (Value.str (chars "unknown")))
        (chars "note")
          (Value.str (chars "Non-GitHub repositories not yet supported")))
        (chars "detection_timestamp") (Value.str ts) := rfl
  refine ⟨e', dupdate (bmOrEmpty e) (noMatchKvs ts), he', hframe, hbm', ?_, ?_⟩
  · rw [hd]
    rw [dget_setL_ne _ _ _ _ (by decide), dget_setL_ne _ _ _ _ (by decide)]
    exact dget_setL_self _ _ _
  · intro key h1 h2 h3
    rw [hd]
    rw [dget_setL_ne _ _ _ _ h3, dget_setL_ne _ _ _ _ h2,
      dget_setL_ne _ _ _ _ h1]

/-- Witness for C8: the record `entryC` (non-GitHub URL, pre-existing
`build_metadata` dict) satisfies the hypotheses, and its enrichment has the
stated shape. -/
theorem claim_C8_witness :
    (dget entryC urlKey =
        some (Value.str (chars "https://example.com/owner/repo"))) ∧
      parse_repo (chars "https://example.com/owner/repo") = none ∧
      bmOkB entryC = true ∧
      (∃ e' m, enrichEntry entryC w0 ts0 = .ok e' ∧
        (∀ key, key ≠ bmKey → dget e' key = dget entryC key) ∧
        dget e' bmKey = some (Value.dict m) ∧
        dget m (chars "repo_host") = some (Value.str (chars "unknown")) ∧
        (∀ key, key ≠ chars "repo_host" → key ≠ chars "note" →
          key ≠ chars "detection_timestamp" →
          dget m key = dget (bmOrEmpty entryC) key)) :=
  ⟨rfl, by decide, rfl, claim_C8 entryC w0 ts0 _ rfl (by decide) rfl⟩

/-- C10: a record whose `url` key is absent, or whose `url` value is not a
string, is returned completely unchanged — no signal keys, no
`build_metadata`, no timestamp; by contrast a record with a
present-but-unparseable URL string does receive a `build_metadata` block. -/
theorem claim_C10 (e : Entry) (w : GhWorld) (ts : Str)
    (h : dget e urlKey = none ∨
      ∃ v, dget e urlKey = some v ∧ ∀ s, v ≠ Value.str s) :
    enrichEntry e w ts = .ok e ∧
      ∀ e₂ u, dget e₂ urlKey = some (Value.str u) → parse_repo u = none →
        bmOkB e₂ = true → ∃ e₂' m, enrichEntry e₂ w ts = .ok e₂' ∧
          dget e₂' bmKey = some (Value.dict m) := by
  constructor
  · rcases h with h | ⟨v, hv, hns⟩
    · simp only [enrichEntry, h]
    · cases v with
      | str s => exact absurd rfl (hns s)
      | null => simp only [enrichEntry, hv]
      | bool b => simp only [enrichEntry, hv]
      | int n => simp only [enrichEntry, hv]
      | list xs => simp only [enrichEntry, hv]
      | dict kvs => simp only [enrichEntry, hv]
  · intro e₂ u hu hp hbm
    obtain ⟨e', he', hbm', _⟩ := enrich_noMatch e₂ w ts u hu hp hbm
    exact ⟨e', dupdate (bmOrEmpty e₂) (noMatchKvs ts), he', hbm'⟩

/-- Witness for C10: `entryD` has no `url` key and comes back unchanged. -/
theorem claim_C10_witness :
    dget entryD urlKey = none ∧
      (enrichEntry entryD w0 ts0 = .ok entryD ∧
        ∀ e₂ u, dget e₂ urlKey = some (Value.str u) → parse_repo u = none →
          bmOkB e₂ = true → ∃ e₂' m, enrichEntry e₂ w0 ts0 = .ok e₂' ∧
            dget e₂' bmKey = some (Value.dict m)) :=
  ⟨rfl, claim_C10 entryD w0 ts0 (Or.inl rfl)⟩

/-- C1: in a batch where exactly the `k`-th record's reference resolution
fails with the HTTP-status ≥ 400 error and every other record's two calls
succeed, the batch completes, the output has the input's length, every
record other than the `k`-th carries the full boolean signal set, and each
output position is the enrichment of the same input position (all keys
outside the signal set and `build_metadata` are unchanged per position). -/
theorem claim_C1 (l : List (Entry × GhWorld)) (ts : Str) (k : Nat)
    (hk : k < l.length)
    (hbm : ∀ ew ∈ l, bmOkB ew.1 = true)
    (hbad : badWorld (l.getD k defaultEW).1 (l.getD k defaultEW).2)
    (hgood : ∀ i, i < l.length → i ≠ k →
      goodWorld (l.getD i defaultEW).1 (l.getD i defaultEW).2) :
    ∃ out, processEntries l ts = .ok out ∧ out.length = l.length ∧
      (∀ i, i < l.length → i ≠ k → hasAllSignals (out.getD i [])) ∧
      (∀ i, i < l.length → ∀ key, key ∉ signalKeys → key ≠ bmKey →
        dget (out.getD i []) key = dget ((l.getD i defaultEW).1) key) := by
  have hmem : ∀ i, i < l.length → l.getD i defaultEW ∈ l := by
    intro i hi
    rw [List.getD_eq_getElem l defaultEW hi]
    exact List.getElem_mem hi
  have hallOk : ∀ i, i < l.length →
      ∃ e', enrichEntry (l.getD i defaultEW).1 (l.getD i defaultEW).2 ts =
          .ok e' ∧
        (i ≠ k → hasAllSignals e') ∧
        (∀ key, key ∉ signalKeys → key ≠ bmKey →
          dget e' key = dget ((l.getD i defaultEW).1) key) := by
    intro i hi
    by_cases hik : i = k
    · subst hik
      obtain ⟨⟨r, hr⟩, hstat⟩ := hbad
      obtain ⟨e', he', hframe⟩ := enrich_err _ _ ts r _ hr
        (hbm _ (hmem i hi))
        (get_default_branch_err r _ hstat)
      exact ⟨e', he', fun hc => absurd rfl hc,
        fun key _ hkb => hframe key hkb⟩
    · obtain ⟨e', he', hsig, hframe⟩ :=
        enrich_success _ _ ts (hgood i hi hik) (hbm _ (hmem i hi))
      exact ⟨e', he', fun _ => hsig, hframe⟩
  obtain ⟨out, hout, hlen, hpt⟩ := processEntries_ok l ts (by
    intro ew hew
    obtain ⟨j, hj, hje⟩ := List.mem_iff_getElem.mp hew
    obtain ⟨e', he', _, _⟩ := hallOk j hj
    rw [List.getD_eq_getElem l defaultEW hj, hje] at he'
    exact ⟨e', he'⟩)
  refine ⟨out, hout, hlen, ?_, ?_⟩
  · intro i hi hik
    obtain ⟨e', he', hsig, _⟩ := hallOk i hi
    have hpti := hpt i hi
    rw [he'] at hpti
    injection hpti with h2
    rw [← h2]
    exact hsig hik
  · intro i hi key hks hkb
    obtain ⟨e', he', _, hframe⟩ := hallOk i hi
    have hpti := hpt i hi
    rw [he'] at hpti
    injection hpti with h2
    rw [← h2]
    exact hframe key hks hkb

/-- Witness for C1: a two-record batch where record 0 gets a 404 on
reference resolution and record 1 succeeds (branch `dev`, tree `[go.mod]`). -/
theorem claim_C1_witness :
    ∃ out, processEntries [(entryA, wBad), (entryB, wGood)] ts0 = .ok out ∧
      out.length = 2 ∧
      (∀ i, i < 2 → i ≠ 0 → hasAllSignals (out.getD i [])) ∧
      (∀ i, i < 2 → ∀ key, key ∉ signalKeys → key ≠ bmKey →
        dget (out.getD i []) key =
          dget (([(entryA, wBad), (entryB, wGood)].getD i defaultEW).1) key) :=
  claim_C1 [(entryA, wBad), (entryB, wGood)] ts0 0 (by decide)
    (by decide)
    ⟨⟨⟨chars "github", chars "ownerA", chars "repoA"⟩, rfl⟩, by decide⟩
    (by
      intro i hi hik
      match i with
      | 0 => exact absurd rfl hik
      | 1 =>
        exact ⟨⟨chars "github", chars "ownerB", chars "repoB"⟩, rfl,
          Value.str (chars "dev"), ⟨none, some (chars "57"), none, 200⟩, rfl,
          [Value.str (chars "go.mod")], ⟨none, some (chars "56"), none, 200⟩,
          rfl, [chars "go.mod"], rfl⟩
      | n + 2 =>
        simp only [List.length_cons, List.length_nil] at hi
        omega)

/-! ## Claim C9: the permit pool bound -/

theorem replicate_inFlight (M : Nat) :
    inFlightCount (List.replicate M false) = 0 := by
  induction M with
  | zero => rfl
  | succ n ih => simp [List.replicate, inFlightCount, List.countP_cons, ih]

theorem inFlight_set_true (s : PoolState) (i : Nat) :
    ∀ (_ : i < s.length) (_ : s.getD i false = false),
      inFlightCount (s.set i true) = inFlightCount s + 1 := by
  induction s generalizing i with
  | nil => intro hi _; simp at hi
  | cons b rest ih =>
    intro hi hfree
    cases i with
    | zero =>
      simp only [List.getD_cons_zero] at hfree
      subst hfree
      simp [inFlightCount, List.countP_cons]
    | succ n =>
      simp only [List.getD_cons_succ] at hfree
      have hn : n < rest.length := by simpa using hi
      simp only [List.set_cons_succ, inFlightCount, List.countP_cons]
      have := ih n hn hfree
      simp only [inFlightCount] at this
      omega

theorem inFlight_set_false (s : PoolState) (i : Nat) :
    ∀ (_ : i < s.length) (_ : s.getD i false = true),
      inFlightCount (s.set i false) + 1 = inFlightCount s := by
  induction s generalizing i with
  | nil => intro hi _; simp at hi
  | cons b rest ih =>
    intro hi hheld
    cases i with
    | zero =>
      simp only [List.getD_cons_zero] at hheld
      subst hheld
      simp [inFlightCount, List.countP_cons]
    | succ n =>
      simp only [List.getD_cons_succ] at hheld
      have hn : n < rest.length := by simpa using hi
      simp only [List.set_cons_succ, inFlightCount, List.countP_cons]
      have := ih n hn hheld
      simp only [inFlightCount] at this
      omega

/-- C9: in every reachable state of the permit pool, the number of
simultaneously in-flight network calls is at most the concurrency ceiling
`N`: an acquire is only enabled below the ceiling, and every release (taken
on success, failure, or timeout alike) only lowers the count. -/
theorem claim_C9 (N M : Nat) (s : PoolState) (h : PoolReach N M s) :
    inFlightCount s ≤ N := by
  induction h with
  | init => rw [replicate_inFlight]; omega
  | step _ hstep ih =>
    cases hstep with
    | acquire i hi hfree hcap =>
      rw [inFlight_set_true _ i hi hfree]
      omega
    | release i hi hheld =>
      have h2 := inFlight_set_false _ i hi hheld
      omega

/-- Witness for C9: with ceiling 8 and three tasks, the state reached by one
acquire has one call in flight, within the bound. -/
theorem claim_C9_witness : inFlightCount ((List.replicate 3 false).set 0 true) ≤ 8 :=
  claim_C9 8 3 _ (PoolReach.step PoolReach.init
    (PoolStep.acquire (List.replicate 3 false) 0 (by decide) (by decide)
      (by decide)))

end Autogo
